import Mathlib

/-!
Shallow embedding of `src/global_optimization/Frame.py` (CellUniverse).

The engine fits parametric 3D cells to a real z-stack image.  Image stacks
are modelled as nested lists over a scalar field `K` (the source uses numpy
float arrays; claims are settled over `ℚ`/`ℝ` instantiations).  The external
`Cell` and `SimulationConfig` collaborators (in `Cells.py` / `Config.py`,
which the spec declares out of scope) are modelled from the spec's interface
contract in section 6.  `np.linalg.norm` is the square root of the sum of
squared entries; the ambient square root is passed as a parameter `sqrtFn`
(over `ℝ` it is `Real.sqrt`), keeping everything else executable.
-/

namespace CellUniverse

/-- A single 2D z-slice image: a list of rows of pixel values. -/
abbrev Image (K : Type) := List (List K)

/-- A depth-ordered 3D image stack. -/
abbrev Stack (K : Type) := List (Image K)

/-- Modelled from the spec: `SimulationConfig` (its `Config.py` is an external
collaborator, section 6): numeric fields z-slice count (`z_slices`),
`z_scaling`, `padding` and `background_color`, read-only for a Frame. -/
structure SimulationConfig (K : Type) where
  z_slices : Nat
  z_scaling : K
  padding : Nat
  background_color : K
deriving DecidableEq, Repr

/-- Modelled from the spec: a `Cell` (its `Cells.py` is an external
collaborator, section 3/6) is a named numeric parameter vector.  The
identifying non-tunable name field of `get_cell_params` is held apart from
the numeric fields, which are an association list of named values. -/
structure Cell (K : Type) where
  name : String
  params : List (String × K)
deriving DecidableEq, Repr

instance {K : Type} : Inhabited (Cell K) := ⟨⟨"", []⟩⟩

/-- Modelled from the spec: `get_cell_params` exposes the cell's parameter
record (section 6); the numeric fields are `params`, the name is `name`. -/
def Cell.get_cell_params {K : Type} (c : Cell K) : List (String × K) :=
  c.params

/-- Modelled from the spec: `get_paramaterized_cell` returns a variant with
each named numeric field shifted by the delta mapping for that name; keys
missing from the mapping shift by zero, matching `defaultdict(float)` /
absent dict entries in the source. -/
def Cell.get_paramaterized_cell {K : Type} [Add K] (c : Cell K) (deltas : String → K) : Cell K :=
  { c with params := c.params.map (fun pv => (pv.1, pv.2 + deltas pv.1)) }

/-- Modelled from the spec: the Cell capability's external operations
(section 6): `draw` renders the cell into an image buffer at a z depth and
`get_perturbed_cell` produces a randomly nudged variant.  The randomness of
one perturbation draw is fixed by the function, and theorems quantify over
all such operation bundles. -/
structure CellOps (K : Type) where
  draw : Cell K → Image K → SimulationConfig K → K → Image K
  get_perturbed_cell : Cell K → Cell K

/-- Source line 18: `[cfg.z_scaling * (i - cfg.z_slices // 2) for i in range(cfg.z_slices)]`. -/
def mk_z_slices {K : Type} [Ring K] (cfg : SimulationConfig K) : List K :=
  (List.range cfg.z_slices).map
    (fun (i : ℕ) => cfg.z_scaling * ((((i : ℤ) - ((cfg.z_slices / 2 : ℕ) : ℤ)) : ℤ) : K))

/-- One slice of `np.pad(..., ((0,0),(p,p),(p,p)), constant_values = bg)`:
each row gains `p` background pixels on both sides, and `p` full background
rows are added on top and bottom. -/
def pad_image {K : Type} (p : ℕ) (bg : K) (img : Image K) : Image K :=
  let w := (img.headD []).length + 2 * p
  List.replicate p (List.replicate w bg)
    ++ img.map (fun row => List.replicate p bg ++ row ++ List.replicate p bg)
    ++ List.replicate p (List.replicate w bg)

/-- Source lines 67-70: pad every slice of the real stack, z axis unchanged. -/
def pad_stack {K : Type} (p : ℕ) (bg : K) (s : Stack K) : Stack K :=
  s.map (pad_image p bg)

/-- The numpy `shape[1:]` of a (rectangular) stack: rows and columns of a slice. -/
def stack_shape {K : Type} (s : Stack K) : ℕ × ℕ :=
  ((s.headD []).length, ((s.headD []).headD []).length)

/-- The nested length profile of a stack; two stacks have the same numpy
shape exactly when these agree (for rectangular stacks). -/
def shape_of {K : Type} (s : Stack K) : List (List ℕ) :=
  s.map (fun img => img.map List.length)

/-- `np.full(shape, bg)`: a background-filled canvas. -/
def full_image {K : Type} (shape : ℕ × ℕ) (bg : K) : Image K :=
  List.replicate shape.1 (List.replicate shape.2 bg)

/-- The inner loop of `generate_synth_images`: draw every cell onto the
canvas in cell-sequence order. -/
def draw_cells {K : Type} (ops : CellOps K) (cs : List (Cell K)) (cfg : SimulationConfig K)
    (z : K) (canvas : Image K) : Image K :=
  cs.foldl (fun img c => ops.draw c img cfg z) canvas

/-- The loop of `generate_synth_images` over the z-slice coordinates: one
background canvas of the given per-slice shape per coordinate, with all
cells drawn onto it. -/
def render_synth {K : Type} (ops : CellOps K) (cfg : SimulationConfig K) (zs : List K)
    (shape : ℕ × ℕ) (cs : List (Cell K)) : Stack K :=
  zs.map (fun z => draw_cells ops cs cfg z (full_image shape cfg.background_color))

/-- The Frame state after `__init__` (source lines 17-29).  `cells` is an
`Option` because the Python attribute can be `None`, which the renderer
checks for explicitly.  `orig_real_image_stack` is the private
`_real_image_stack`; `real_image_stack` is the padded working copy. -/
structure Frame (K : Type) where
  z_slices : List K
  cells : Option (List (Cell K))
  simulation_config : SimulationConfig K
  output_path : String
  image_name : String
  orig_real_image_stack : Stack K
  real_image_stack : Stack K
  synth_image_stack : Stack K
deriving DecidableEq

/-- Source lines 72-74: `self.real_image_stack.shape[1:]`. -/
def Frame.get_image_shape {K : Type} (f : Frame K) : ℕ × ℕ :=
  stack_shape f.real_image_stack

/-- Source lines 42-56: raise `ValueError("Cells are not set")` when `cells`
is `None`, otherwise render one background canvas per z coordinate with all
cells drawn in order. -/
def Frame.generate_synth_images {K : Type} (f : Frame K) (ops : CellOps K) :
    Except String (Stack K) :=
  match f.cells with
  | none => .error "Cells are not set"
  | some cs => .ok (render_synth ops f.simulation_config f.z_slices f.get_image_shape cs)

/-- Sum over one row of squared elementwise differences. -/
def sq_diff_row {K : Type} [Ring K] (r s : List K) : K :=
  (List.zipWith (fun a b => (a - b) ^ 2) r s).sum

/-- Sum over one slice of squared elementwise differences. -/
def sq_diff_image {K : Type} [Ring K] (a b : Image K) : K :=
  (List.zipWith sq_diff_row a b).sum

/-- Sum over the whole stack of squared elementwise differences. -/
def sq_cost {K : Type} [Ring K] (a b : Stack K) : K :=
  (List.zipWith sq_diff_image a b).sum

/-- `np.linalg.norm(a - b)`: the square root of the sum of squared
differences.  The square root of the scalar field is the parameter
`sqrtFn`; over `ℝ` it is `Real.sqrt`. -/
def calculate_cost {K : Type} [Ring K] (sqrtFn : K → K) (a b : Stack K) : K :=
  sqrtFn (sq_cost a b)

/-- Source lines 58-60: `float(np.linalg.norm(self.real_image_stack - synth))`. -/
def Frame.calculate_cost {K : Type} [Ring K] (f : Frame K) (sqrtFn : K → K)
    (synth : Stack K) : K :=
  CellUniverse.calculate_cost sqrtFn f.real_image_stack synth

/-- Source `__init__` (lines 17-29): store the z coordinates, cells and
config, keep the original stack and a padded working copy, then render the
initial synthetic stack (which raises if `cells` is `None`). -/
def Frame.init {K : Type} [Ring K] (ops : CellOps K) (real_image_stack : Stack K)
    (simulation_config : SimulationConfig K) (cells : Option (List (Cell K)))
    (output_path image_name : String) : Except String (Frame K) :=
  let f0 : Frame K :=
    { z_slices := mk_z_slices simulation_config
      cells := cells
      simulation_config := simulation_config
      output_path := output_path
      image_name := image_name
      orig_real_image_stack := real_image_stack
      real_image_stack :=
        pad_stack simulation_config.padding simulation_config.background_color real_image_stack
      synth_image_stack := [] }
  match f0.generate_synth_images ops with
  | .error e => .error e
  | .ok s => .ok { f0 with synth_image_stack := s }

/-- Source lines 102-127.  The random index draw `random.randint(0, len-1)`
is modelled by the `index` argument together with its range check; on an
empty cell list `randint` raises (a range error, not the explicit
cells-required error), and `len(None)` raises a `TypeError`.  The returned
triple is the mutated frame (the source mutates `self` in place), the cost
improvement `old_cost - new_cost`, and the finalize callback mapping the
accept decision to the resulting frame state. -/
def Frame.perturb {K : Type} [Ring K] (f : Frame K) (ops : CellOps K) (sqrtFn : K → K)
    (index : ℕ) : Except String (Frame K × K × (Bool → Frame K)) :=
  match f.cells with
  | none => .error "object of type NoneType has no len()"
  | some cs =>
    if cs.length = 0 then .error "empty range for randrange"
    else if index < cs.length then
      let old_cell := cs.getD index default
      let new_cells := cs.set index (ops.get_perturbed_cell (cs.getD index default))
      let f1 : Frame K := { f with cells := some new_cells }
      let new_synth_image_stack :=
        render_synth ops f1.simulation_config f1.z_slices f1.get_image_shape new_cells
      let new_cost := f1.calculate_cost sqrtFn new_synth_image_stack
      let old_cost := f1.calculate_cost sqrtFn f1.synth_image_stack
      .ok (f1, old_cost - new_cost,
        fun accept =>
          if accept then { f1 with cells := some (new_cells.set index old_cell) }
          else { f1 with synth_image_stack := new_synth_image_stack })
    else .error "index out of range"

/-- The body of one probe of the source's gradient loop (lines 148-166):
shift the current cell at `index` by `moving_delta = 1` on only the probed
key, re-render the whole stack, score it, record
`(new_cost - orig_cost) / delta` with `delta = 1e-3` under the probed key,
and restore the saved old cell at `index`. -/
def grad_probe_step {K : Type} [Field K] (ops : CellOps K) (sqrtFn : K → K) (f : Frame K)
    (orig_cost : K) (index : ℕ) (old_cell : Cell K) :
    ((String → K) × List (Cell K)) → (String × K) → ((String → K) × List (Cell K)) :=
  fun acc pv =>
    let probed := (acc.2.getD index default).get_paramaterized_cell
        (fun q => if q = pv.1 then (1 : K) else 0)
    let cells1 := acc.2.set index probed
    let new_synth := render_synth ops f.simulation_config f.z_slices f.get_image_shape cells1
    let new_cost := CellUniverse.calculate_cost sqrtFn f.real_image_stack new_synth
    ((fun q => if q = pv.1 then (new_cost - orig_cost) / (1 / 1000) else acc.1 q),
      cells1.set index old_cell)

/-- The gradient loop of `gradient_descent` for a single cell (source lines
141-166): deep-copy the cell at `index`, probe every parameter of its
parameter record except the identifying `name` field, and return the
`param_gradients` lookup (zero off the probed keys) together with the cell
list state after the loop. -/
def grad_probe_cell {K : Type} [Field K] (ops : CellOps K) (sqrtFn : K → K) (f : Frame K)
    (orig_cost : K) (cells : List (Cell K)) (index : ℕ) :
    ((String → K) × List (Cell K)) :=
  let old_cell := cells.getD index default
  ((old_cell.get_cell_params.filter (fun pv => pv.1 ≠ "name")).foldl
    (grad_probe_step ops sqrtFn f orig_cost index old_cell)
    ((fun _ => (0 : K)), cells))

/-- One iteration of the outer gradient loop (source lines 141-170): run the
per-cell probe loop on the current cell state and record the cell's descent
directions `-1 * alpha * gradient` with `alpha = 0.1` under its index. -/
def grad_sweep_step {K : Type} [Field K] (ops : CellOps K) (sqrtFn : K → K) (f : Frame K)
    (orig_cost : K) :
    ((ℕ → String → K) × List (Cell K)) → ℕ → ((ℕ → String → K) × List (Cell K)) :=
  fun acc index =>
    let r := grad_probe_cell ops sqrtFn f orig_cost acc.2 index
    ((fun i q => if i = index then -1 * (1 / 10) * r.1 q else acc.1 i q), r.2)

/-- The full gradient sweep over every cell index in sequence order,
accumulating the `directions` table without applying it. -/
def grad_sweep {K : Type} [Field K] (ops : CellOps K) (sqrtFn : K → K) (f : Frame K)
    (orig_cost : K) (cs : List (Cell K)) : ((ℕ → String → K) × List (Cell K)) :=
  (List.range cs.length).foldl (grad_sweep_step ops sqrtFn f orig_cost)
    ((fun _ _ => (0 : K)), cs)

/-- The commit loop of `gradient_descent` (source lines 170-172): replace
each cell by its variant shifted by the cell's accumulated direction
vector. -/
def apply_directions {K : Type} [Add K] (directions : ℕ → String → K) (n : ℕ)
    (cells : List (Cell K)) : List (Cell K) :=
  (List.range n).foldl
    (fun cur index => cur.set index ((cur.getD index default).get_paramaterized_cell
      (directions index)))
    cells

/-- Source lines 130-179: compute the baseline cost once from the cached
synthetic stack, sweep all cells and parameters for finite-difference
gradients, commit every cell's accumulated direction as one combined shift,
and regenerate the cached stack from the final cell sequence.  The source
also computes the final cost and discards it.  Iterating `None` raises. -/
def Frame.gradient_descent {K : Type} [Field K] (f : Frame K) (ops : CellOps K)
    (sqrtFn : K → K) : Except String (Frame K) :=
  match f.cells with
  | none => .error "NoneType object is not iterable"
  | some cs =>
    let orig_cost := f.calculate_cost sqrtFn f.synth_image_stack
    let sweep := grad_sweep ops sqrtFn f orig_cost cs
    let final_cells := apply_directions sweep.1 cs.length sweep.2
    let f1 : Frame K := { f with cells := some final_cells }
    let new_synth :=
      render_synth ops f1.simulation_config f1.z_slices f1.get_image_shape final_cells
    .ok { f1 with synth_image_stack := new_synth }

/-- The cache-consistency invariant of the spec (section 3): the cached
synthetic stack is exactly what rendering the current committed cell
sequence produces. -/
def cache_consistent {K : Type} (ops : CellOps K) (f : Frame K) : Prop :=
  f.generate_synth_images ops = .ok f.synth_image_stack

/-- Two stacks have the same numpy shape: equal nested length profiles. -/
def same_shape {K : Type} (a b : Stack K) : Prop :=
  shape_of a = shape_of b

/-- A rectangular stack of `D` slices, each `H` rows of `W` pixels, as numpy
guarantees for a 3D array. -/
def rect_stack {K : Type} (D H W : ℕ) (s : Stack K) : Prop :=
  s.length = D ∧ ∀ img ∈ s, img.length = H ∧ ∀ row ∈ img, row.length = W

instance {K : Type} (D H W : ℕ) (s : Stack K) : Decidable (rect_stack D H W s) := by
  unfold rect_stack
  infer_instance

/-- The row-length profile of one slice. -/
def img_dims {K : Type} (img : Image K) : List ℕ :=
  img.map List.length

/-- The draw operation writes into the canvas in place in the source, so it
never changes the canvas dimensions. -/
def draw_dims_preserving {K : Type} (ops : CellOps K) : Prop :=
  ∀ c img cfg z, img_dims (ops.draw c img cfg z) = img_dims img

deriving instance DecidableEq for Except

instance {K : Type} [Zero K] : Inhabited (Frame K) :=
  ⟨{ z_slices := [], cells := none, simulation_config := ⟨0, 0, 0, 0⟩, output_path := "",
     image_name := "", orig_real_image_stack := [], real_image_stack := [],
     synth_image_stack := [] }⟩

/-! ## Concrete instances used by witnesses and counterexamples

`opsZ.draw` brightens every canvas pixel by the sum of the cell's parameter
values, and `get_perturbed_cell` nudges every parameter up by one; this is
one representative external Cell capability. -/

def opsZ : CellOps ℤ :=
  { draw := fun c img _cfg _z =>
      img.map (fun row => row.map (fun x => x + (c.params.map Prod.snd).sum)),
    get_perturbed_cell := fun c =>
      { c with params := c.params.map (fun pv => (pv.1, pv.2 + 1)) } }

def cfgZ : SimulationConfig ℤ := { z_slices := 1, z_scaling := 1, padding := 0, background_color := 0 }

def cellZ : Cell ℤ := { name := "cell", params := [("x", 2)] }

def perturbedZ : Cell ℤ := { name := "cell", params := [("x", 3)] }

def realZ : Stack ℤ := [[[5]]]

/-- The Frame that `Frame.init opsZ realZ cfgZ (some [cellZ]) "" ""` builds. -/
def frameZ : Frame ℤ :=
  { z_slices := [0], cells := some [cellZ], simulation_config := cfgZ,
    output_path := "", image_name := "", orig_real_image_stack := realZ,
    real_image_stack := realZ, synth_image_stack := [[[2]]] }

/-- The finalize callback of the perturbation trial at index 0 on `frameZ`. -/
def finalizeZ : Bool → Frame ℤ :=
  match Frame.perturb frameZ opsZ id 0 with
  | .ok (_, _, fin) => fin
  | .error _ => fun _ => frameZ

/-- `frameZ` with an empty (but present) cell list. -/
def frameEmptyCellsZ : Frame ℤ :=
  { frameZ with cells := some [] }

/-- `frameZ` with the cell attribute set to None. -/
def frameNoCellsZ : Frame ℤ :=
  { frameZ with cells := none }

/-- A config whose slice count (2) disagrees with the depth (1) of `realZ`. -/
def cfgZ2 : SimulationConfig ℤ := { z_slices := 2, z_scaling := 1, padding := 0, background_color := 0 }

/-- The Frame built from `realZ` under `cfgZ2` with no cells to draw. -/
def frameMismatchZ : Frame ℤ :=
  match Frame.init opsZ realZ cfgZ2 (some []) "" "" with
  | .ok f => f
  | .error _ => default

/-- A padding example: one 2 by 2 slice, padding 1, background 7. -/
def cfgPadZ : SimulationConfig ℤ := { z_slices := 1, z_scaling := 1, padding := 1, background_color := 7 }

def realPadZ : Stack ℤ := [[[1, 2], [3, 4]]]

def framePadZ : Frame ℤ :=
  match Frame.init opsZ realPadZ cfgPadZ (some []) "" "" with
  | .ok f => f
  | .error _ => default

/-- An odd-slice-count config for the z-coordinate witness. -/
def cfgOddZ : SimulationConfig ℤ := { z_slices := 3, z_scaling := 2, padding := 0, background_color := 0 }

/-- The rational twin of the integer example, for the gradient-descent
witnesses (which need division). -/
def opsQ : CellOps ℚ :=
  { draw := fun c img _cfg _z =>
      img.map (fun row => row.map (fun x => x + (c.params.map Prod.snd).sum)),
    get_perturbed_cell := fun c =>
      { c with params := c.params.map (fun pv => (pv.1, pv.2 + 1)) } }

def cfgQ : SimulationConfig ℚ := { z_slices := 1, z_scaling := 1, padding := 0, background_color := 0 }

def cellQ : Cell ℚ := { name := "cell", params := [("x", 2)] }

def realQ : Stack ℚ := [[[5]]]

def frameQ : Frame ℚ :=
  match Frame.init opsQ realQ cfgQ (some [cellQ]) "" "" with
  | .ok f => f
  | .error _ => default

def midQ : Frame ℚ :=
  match Frame.perturb frameQ opsQ id 0 with
  | .ok (m, _, _) => m
  | .error _ => default

def deltaQ : ℚ :=
  match Frame.perturb frameQ opsQ id 0 with
  | .ok (_, d, _) => d
  | .error _ => 0

def finalizeQ : Bool → Frame ℚ :=
  match Frame.perturb frameQ opsQ id 0 with
  | .ok (_, _, fin) => fin
  | .error _ => fun _ => frameQ

def gdQ : Frame ℚ :=
  match Frame.gradient_descent frameQ opsQ id with
  | .ok f => f
  | .error _ => default

/-- The synthetic stack that `framePadZ` renders. -/
def ssPadZ : Stack ℤ :=
  match framePadZ.generate_synth_images opsZ with
  | .ok s => s
  | .error _ => []

/-- Two real-valued stacks of equal shape for the cost evaluator claim. -/
def stackA : Stack ℝ := [[[1, 2]]]

def stackB : Stack ℝ := [[[0, 2]]]

/-! ## Spec-side descriptions of the gradient pass

These definitions follow the spec's words (section 4.5) rather than the
source's loop, and the theorems below prove that the source's
probe-and-restore loop computes exactly them. -/

/-- The finite-difference estimate the spec describes for one parameter:
starting from the committed cell sequence `cs`, only the cell at `index` is
replaced by its variant shifted by the moving delta `1` on only `param`,
the whole stack is re-rendered and scored against the real stack, and the
estimate is `(new_cost - orig_cost) / delta` with the fixed epsilon
`delta = 1e-3` (distinct from the moving delta). -/
def probe_gradient {K : Type} [Field K] (ops : CellOps K) (sqrtFn : K → K) (f : Frame K)
    (orig_cost : K) (cs : List (Cell K)) (index : ℕ) (param : String) : K :=
  (CellUniverse.calculate_cost sqrtFn f.real_image_stack
      (render_synth ops f.simulation_config f.z_slices f.get_image_shape
        (cs.set index ((cs.getD index default).get_paramaterized_cell
          (fun q => if q = param then (1 : K) else 0))))
    - orig_cost) / (1 / 1000)

/-- The tunable parameter names of the cell at `index`: every field of its
parameter record except the identifying name field. -/
def cell_param_keys {K : Type} (cs : List (Cell K)) (index : ℕ) : List String :=
  ((cs.getD index default).get_cell_params.filter (fun pv => pv.1 ≠ "name")).map Prod.fst

/-- The descent direction the spec describes: `-learning_rate * gradient`
with `alpha = 0.1` on each tunable parameter, zero elsewhere. -/
def sweep_direction {K : Type} [Field K] (ops : CellOps K) (sqrtFn : K → K) (f : Frame K)
    (orig_cost : K) (cs : List (Cell K)) (index : ℕ) (q : String) : K :=
  -1 * (1 / 10) * (if q ∈ cell_param_keys cs index
    then probe_gradient ops sqrtFn f orig_cost cs index q else 0)

/-! ## List helpers -/

lemma list_set_getD_self {α : Type} (l : List α) (i : ℕ) (d : α) :
    l.set i (l.getD i d) = l := by
  induction l generalizing i with
  | nil => rfl
  | cons a l ih =>
    cases i with
    | zero => rfl
    | succ n =>
      show a :: l.set n (l.getD n d) = a :: l
      rw [ih]

lemma list_getD_set_self {α : Type} (l : List α) (i : ℕ) (a d : α) (h : i < l.length) :
    (l.set i a).getD i d = a := by
  induction l generalizing i with
  | nil => exact absurd h (Nat.not_lt_zero i)
  | cons b l ih =>
    cases i with
    | zero => rfl
    | succ n => exact ih n (Nat.lt_of_succ_lt_succ h)

lemma list_getD_set_ne {α : Type} (l : List α) {i j : ℕ} (a d : α) (h : i ≠ j) :
    (l.set i a).getD j d = l.getD j d := by
  induction l generalizing i j with
  | nil => rfl
  | cons b l ih =>
    cases i with
    | zero => cases j with
      | zero => exact absurd rfl h
      | succ m => rfl
    | succ n => cases j with
      | zero => rfl
      | succ m => exact ih (fun hnm => h (congrArg Nat.succ hnm))

/-! ## Inversion of the engine operations -/

lemma init_ok_inv {K : Type} [Ring K] {ops : CellOps K} {real : Stack K}
    {cfg : SimulationConfig K} {cells : Option (List (Cell K))} {out nm : String} {f : Frame K}
    (h : Frame.init ops real cfg cells out nm = .ok f) :
    ∃ cs, cells = some cs ∧
      f = { z_slices := mk_z_slices cfg
            cells := some cs
            simulation_config := cfg
            output_path := out
            image_name := nm
            orig_real_image_stack := real
            real_image_stack := pad_stack cfg.padding cfg.background_color real
            synth_image_stack := render_synth ops cfg (mk_z_slices cfg)
              (stack_shape (pad_stack cfg.padding cfg.background_color real)) cs } := by
  cases cells with
  | none => simp [Frame.init, Frame.generate_synth_images] at h
  | some cs =>
    refine ⟨cs, rfl, ?_⟩
    simp only [Frame.init, Frame.generate_synth_images, Frame.get_image_shape] at h
    exact (Except.ok.inj h).symm

lemma init_none {K : Type} [Ring K] (ops : CellOps K) (real : Stack K)
    (cfg : SimulationConfig K) (out nm : String) :
    Frame.init ops real cfg none out nm = .error "Cells are not set" := rfl

lemma perturb_ok_inv {K : Type} [Ring K] {f : Frame K} {ops : CellOps K} {sqrtFn : K → K}
    {index : ℕ} {mid : Frame K} {d : K} {fin : Bool → Frame K}
    (h : f.perturb ops sqrtFn index = .ok (mid, d, fin)) :
    ∃ cs, f.cells = some cs ∧ index < cs.length ∧
      mid = { f with
        cells := some (cs.set index (ops.get_perturbed_cell (cs.getD index default))) } ∧
      fin = fun accept =>
        if accept then
          { f with cells := some ((cs.set index
              (ops.get_perturbed_cell (cs.getD index default))).set index
              (cs.getD index default)) }
        else
          { f with
            cells := some (cs.set index (ops.get_perturbed_cell (cs.getD index default)))
            synth_image_stack := render_synth ops f.simulation_config f.z_slices
              f.get_image_shape
              (cs.set index (ops.get_perturbed_cell (cs.getD index default))) } := by
  cases hc : f.cells with
  | none => simp [Frame.perturb, hc] at h
  | some cs =>
    simp only [Frame.perturb, hc] at h
    by_cases h0 : cs.length = 0
    · rw [if_pos h0] at h
      exact absurd h (by simp)
    · rw [if_neg h0] at h
      by_cases h1 : index < cs.length
      · rw [if_pos h1] at h
        simp only [Except.ok.injEq, Prod.mk.injEq] at h
        obtain ⟨hmid, -, hfin⟩ := h
        exact ⟨cs, rfl, h1, hmid.symm, hfin.symm⟩
      · rw [if_neg h1] at h
        exact absurd h (by simp)

lemma gradient_descent_ok_inv {K : Type} [Field K] {f : Frame K} {ops : CellOps K}
    {sqrtFn : K → K} {g : Frame K}
    (h : f.gradient_descent ops sqrtFn = .ok g) :
    ∃ cs, f.cells = some cs ∧
      g = { f with
        cells := some (apply_directions
          (grad_sweep ops sqrtFn f (f.calculate_cost sqrtFn f.synth_image_stack) cs).1
          cs.length
          (grad_sweep ops sqrtFn f (f.calculate_cost sqrtFn f.synth_image_stack) cs).2)
        synth_image_stack := render_synth ops f.simulation_config f.z_slices
          f.get_image_shape
          (apply_directions
            (grad_sweep ops sqrtFn f (f.calculate_cost sqrtFn f.synth_image_stack) cs).1
            cs.length
            (grad_sweep ops sqrtFn f (f.calculate_cost sqrtFn f.synth_image_stack) cs).2) } := by
  cases hc : f.cells with
  | none => simp [Frame.gradient_descent, hc] at h
  | some cs =>
    simp only [Frame.gradient_descent, hc] at h
    exact ⟨cs, rfl, (Except.ok.inj h).symm⟩

/-! ## The gradient sweep computes the spec's finite differences -/

lemma grad_probe_cell_eq {K : Type} [Field K] (ops : CellOps K) (sqrtFn : K → K)
    (f : Frame K) (orig_cost : K) (cells : List (Cell K)) (index : ℕ) :
    grad_probe_cell ops sqrtFn f orig_cost cells index =
      (fun q => if q ∈ cell_param_keys cells index
         then probe_gradient ops sqrtFn f orig_cost cells index q else 0,
       cells) := by
  have aux : ∀ (ps : List (String × K)) (g0 : String → K),
      ps.foldl (grad_probe_step ops sqrtFn f orig_cost index (cells.getD index default))
        (g0, cells)
      = (fun q => if q ∈ ps.map Prod.fst
          then probe_gradient ops sqrtFn f orig_cost cells index q else g0 q, cells) := by
    intro ps
    induction ps with
    | nil => intro g0; simp
    | cons pv ps ih =>
      intro g0
      rw [List.foldl_cons]
      have hstep : grad_probe_step ops sqrtFn f orig_cost index (cells.getD index default)
          (g0, cells) pv
          = ((fun q => if q = pv.1
              then probe_gradient ops sqrtFn f orig_cost cells index pv.1 else g0 q), cells) := by
        simp only [grad_probe_step, probe_gradient, List.set_set, list_set_getD_self]
      rw [hstep, ih]
      refine Prod.ext ?_ rfl
      funext q
      by_cases h1 : q ∈ ps.map Prod.fst
      · simp [h1]
      · by_cases h2 : q = pv.1
        · subst h2; simp [h1]
        · simp [h1, h2]
  simp only [grad_probe_cell, cell_param_keys]
  rw [aux]

lemma grad_sweep_eq {K : Type} [Field K] (ops : CellOps K) (sqrtFn : K → K) (f : Frame K)
    (orig_cost : K) (cs : List (Cell K)) :
    grad_sweep ops sqrtFn f orig_cost cs =
      (fun i q => if i < cs.length
         then sweep_direction ops sqrtFn f orig_cost cs i q else 0,
       cs) := by
  have aux : ∀ (l : List ℕ) (d0 : ℕ → String → K),
      l.foldl (grad_sweep_step ops sqrtFn f orig_cost) (d0, cs)
      = (fun i q => if i ∈ l then sweep_direction ops sqrtFn f orig_cost cs i q
          else d0 i q, cs) := by
    intro l
    induction l with
    | nil => intro d0; simp
    | cons j l ih =>
      intro d0
      rw [List.foldl_cons]
      have hstep : grad_sweep_step ops sqrtFn f orig_cost (d0, cs) j
          = ((fun i q => if i = j then sweep_direction ops sqrtFn f orig_cost cs j q
              else d0 i q), cs) := by
        simp only [grad_sweep_step, grad_probe_cell_eq, sweep_direction]
      rw [hstep, ih]
      refine Prod.ext ?_ rfl
      funext i q
      by_cases h1 : i ∈ l
      · simp [h1]
      · by_cases h2 : i = j
        · subst h2; simp [h1]
        · simp [h1, h2]
  simp only [grad_sweep]
  rw [aux]
  refine Prod.ext ?_ rfl
  funext i q
  simp [List.mem_range]

/-! ## The commit loop applies one combined shift per cell -/

lemma apply_fold_length {K : Type} [Add K] (dirs : ℕ → String → K) (l : List ℕ)
    (cells : List (Cell K)) :
    (l.foldl (fun cur index => cur.set index
      ((cur.getD index default).get_paramaterized_cell (dirs index))) cells).length
    = cells.length := by
  induction l generalizing cells with
  | nil => rfl
  | cons i l ih => rw [List.foldl_cons, ih, List.length_set]

lemma apply_fold_getD {K : Type} [Add K] (dirs : ℕ → String → K) (l : List ℕ)
    (cells : List (Cell K)) (hl : ∀ i ∈ l, i < cells.length) (hnd : l.Nodup) (j : ℕ) :
    ((l.foldl (fun cur index => cur.set index
        ((cur.getD index default).get_paramaterized_cell (dirs index))) cells).getD j default)
    = if j ∈ l then (cells.getD j default).get_paramaterized_cell (dirs j)
      else cells.getD j default := by
  induction l generalizing cells with
  | nil => simp
  | cons i l ih =>
    rw [List.foldl_cons]
    have hi : i < cells.length := hl i (List.mem_cons_self i l)
    have hl1 : ∀ x ∈ l, x < (cells.set i
        ((cells.getD i default).get_paramaterized_cell (dirs i))).length := by
      intro x hx
      rw [List.length_set]
      exact hl x (List.mem_cons_of_mem i hx)
    rw [ih _ hl1 hnd.of_cons]
    by_cases hji : j = i
    · subst hji
      have hjl : j ∉ l := (List.nodup_cons.mp hnd).1
      rw [if_neg hjl, if_pos (List.mem_cons_self j l), list_getD_set_self _ _ _ _ hi]
    · rw [list_getD_set_ne _ _ _ (fun hij => hji hij.symm)]
      by_cases hjl : j ∈ l
      · rw [if_pos hjl, if_pos (List.mem_cons_of_mem i hjl)]
      · rw [if_neg hjl, if_neg (fun hm => (List.mem_cons.mp hm).elim hji hjl)]

lemma apply_directions_eq {K : Type} [Add K] (dirs : ℕ → String → K) (cs : List (Cell K)) :
    apply_directions dirs cs.length cs
      = cs.mapIdx (fun i c => c.get_paramaterized_cell (dirs i)) := by
  have hlen : (apply_directions dirs cs.length cs).length = cs.length :=
    apply_fold_length dirs (List.range cs.length) cs
  apply List.ext_getElem
  · rw [hlen, List.length_mapIdx]
  · intro n h1 h2
    rw [List.getElem_mapIdx]
    have hn : n < cs.length := by rwa [hlen] at h1
    have hD := apply_fold_getD dirs (List.range cs.length) cs
      (by intro i hi; exact List.mem_range.mp hi) (List.nodup_range cs.length) n
    rw [if_pos (List.mem_range.mpr hn)] at hD
    calc (apply_directions dirs cs.length cs)[n]
        = (apply_directions dirs cs.length cs).getD n default :=
          (List.getD_eq_getElem _ _ h1).symm
      _ = (cs.getD n default).get_paramaterized_cell (dirs n) := hD
      _ = (cs[n]).get_paramaterized_cell (dirs n) := by rw [List.getD_eq_getElem _ _ hn]

/-! ## Cost evaluator lemmas -/

lemma sq_diff_row_comm {K : Type} [Ring K] (r s : List K) :
    sq_diff_row r s = sq_diff_row s r := by
  have h := List.zipWith_comm_of_comm (fun a b : K => (a - b) ^ 2)
    (fun x y => by show (x - y) ^ 2 = (y - x) ^ 2; rw [← neg_sub x y, neg_sq]) r s
  unfold sq_diff_row
  rw [h]

lemma sq_diff_image_comm {K : Type} [Ring K] (a b : Image K) :
    sq_diff_image a b = sq_diff_image b a := by
  have h := List.zipWith_comm_of_comm sq_diff_row sq_diff_row_comm a b
  unfold sq_diff_image
  rw [h]

lemma sq_cost_comm {K : Type} [Ring K] (a b : Stack K) :
    sq_cost a b = sq_cost b a := by
  have h := List.zipWith_comm_of_comm sq_diff_image sq_diff_image_comm a b
  unfold sq_cost
  rw [h]

lemma sq_diff_row_nonneg {K : Type} [LinearOrderedRing K] (r s : List K) :
    0 ≤ sq_diff_row r s := by
  induction r generalizing s with
  | nil => simp [sq_diff_row]
  | cons a r ih =>
    cases s with
    | nil => simp [sq_diff_row]
    | cons b s =>
      have h := ih s
      unfold sq_diff_row at h ⊢
      rw [List.zipWith_cons_cons, List.sum_cons]
      exact add_nonneg (sq_nonneg _) h

lemma sq_diff_image_nonneg {K : Type} [LinearOrderedRing K] (a b : Image K) :
    0 ≤ sq_diff_image a b := by
  induction a generalizing b with
  | nil => simp [sq_diff_image]
  | cons r a ih =>
    cases b with
    | nil => simp [sq_diff_image]
    | cons t b =>
      have h := ih b
      unfold sq_diff_image at h ⊢
      rw [List.zipWith_cons_cons, List.sum_cons]
      exact add_nonneg (sq_diff_row_nonneg r t) h

lemma sq_cost_nonneg {K : Type} [LinearOrderedRing K] (a b : Stack K) :
    0 ≤ sq_cost a b := by
  induction a generalizing b with
  | nil => simp [sq_cost]
  | cons x a ih =>
    cases b with
    | nil => simp [sq_cost]
    | cons y b =>
      have h := ih b
      unfold sq_cost at h ⊢
      rw [List.zipWith_cons_cons, List.sum_cons]
      exact add_nonneg (sq_diff_image_nonneg x y) h

lemma sq_diff_row_self {K : Type} [Ring K] (r : List K) : sq_diff_row r r = 0 := by
  induction r with
  | nil => rfl
  | cons a r ih =>
    unfold sq_diff_row at ih ⊢
    rw [List.zipWith_cons_cons, List.sum_cons, sub_self, ih]
    simp

lemma sq_diff_image_self {K : Type} [Ring K] (a : Image K) : sq_diff_image a a = 0 := by
  induction a with
  | nil => rfl
  | cons r a ih =>
    unfold sq_diff_image at ih ⊢
    rw [List.zipWith_cons_cons, List.sum_cons, sq_diff_row_self, ih]
    simp

lemma sq_cost_self {K : Type} [Ring K] (a : Stack K) : sq_cost a a = 0 := by
  induction a with
  | nil => rfl
  | cons x a ih =>
    unfold sq_cost at ih ⊢
    rw [List.zipWith_cons_cons, List.sum_cons, sq_diff_image_self, ih]
    simp

/-! ## Z-slice coordinate lemmas -/

lemma mk_z_slices_length {K : Type} [Ring K] (cfg : SimulationConfig K) :
    (mk_z_slices cfg).length = cfg.z_slices := by
  simp [mk_z_slices]

lemma mk_z_slices_getD {K : Type} [Ring K] (cfg : SimulationConfig K) (i : ℕ)
    (h : i < cfg.z_slices) :
    (mk_z_slices cfg).getD i 0
      = cfg.z_scaling * (((i : ℤ) - ((cfg.z_slices / 2 : ℕ) : ℤ) : ℤ) : K) := by
  rw [List.getD_eq_getElem _ _ (by rwa [mk_z_slices_length])]
  unfold mk_z_slices
  rw [List.getElem_map, List.getElem_range]

/-! ## Padding lemmas -/

lemma getD_append_left {α : Type} {l₁ l₂ : List α} {n : ℕ} (h : n < l₁.length) (d : α) :
    (l₁ ++ l₂).getD n d = l₁.getD n d := by
  rw [List.getD_eq_getElem?_getD, List.getD_eq_getElem?_getD, List.getElem?_append_left h]

lemma getD_append_right {α : Type} {l₁ l₂ : List α} {n : ℕ} (h : l₁.length ≤ n) (d : α) :
    (l₁ ++ l₂).getD n d = l₂.getD (n - l₁.length) d := by
  rw [List.getD_eq_getElem?_getD, List.getD_eq_getElem?_getD, List.getElem?_append_right h]

lemma getD_replicate {α : Type} {n m : ℕ} (a : α) :
    (List.replicate n a).getD m a = a := by
  rw [List.getD_eq_getElem?_getD, List.getElem?_replicate]
  by_cases h : m < n <;> simp [h]

lemma getD_replicate_lt {α : Type} {n m : ℕ} (a d : α) (h : m < n) :
    (List.replicate n a).getD m d = a := by
  rw [List.getD_eq_getElem?_getD, List.getElem?_replicate, if_pos h]
  rfl

lemma pad_image_spec {K : Type} (p : ℕ) (bg : K) (img : Image K) (H W : ℕ)
    (hH : img.length = H) (hW : ∀ row ∈ img, row.length = W) (hpos : 0 < H) :
    (pad_image p bg img).length = H + 2 * p
    ∧ (∀ row ∈ pad_image p bg img, row.length = W + 2 * p)
    ∧ ∀ i j, (i < p ∨ H + p ≤ i ∨ j < p ∨ W + p ≤ j) →
        ((pad_image p bg img).getD i []).getD j bg = bg := by
  have hne : img ≠ [] := by
    intro h
    rw [h] at hH
    simp at hH
    omega
  have hhead : (img.headD []).length = W := by
    cases img with
    | nil => exact absurd rfl hne
    | cons r t => exact hW r (List.mem_cons_self r t)
  have hpad : pad_image p bg img
      = List.replicate p (List.replicate (W + 2 * p) bg)
        ++ (img.map (fun row => List.replicate p bg ++ row ++ List.replicate p bg)
            ++ List.replicate p (List.replicate (W + 2 * p) bg)) := by
    unfold pad_image
    rw [hhead, List.append_assoc]
  rw [hpad]
  refine ⟨?_, ?_, ?_⟩
  · simp [List.length_append, List.length_replicate, List.length_map, hH]
    omega
  · intro row hrow
    rcases List.mem_append.mp hrow with h | h
    · rw [List.eq_of_mem_replicate h, List.length_replicate]
    · rcases List.mem_append.mp h with h2 | h2
      · obtain ⟨r, hr, rfl⟩ := List.mem_map.mp h2
        simp [List.length_append, List.length_replicate, hW r hr]
        omega
      · rw [List.eq_of_mem_replicate h2, List.length_replicate]
  · intro i j hcond
    by_cases hip : i < p
    · rw [getD_append_left (by rwa [List.length_replicate]) [],
        getD_replicate_lt _ _ hip, getD_replicate]
    · push_neg at hip
      rw [getD_append_right (by rwa [List.length_replicate]) []]
      simp only [List.length_replicate]
      by_cases him : i - p < H
      · -- the middle block: a padded original row
        rw [getD_append_left (by rwa [List.length_map, hH]) []]
        have hidx : i - p < img.length := by rwa [hH]
        have hmap : i - p < (img.map (fun row =>
            List.replicate p bg ++ row ++ List.replicate p bg)).length := by
          rwa [List.length_map]
        rw [List.getD_eq_getElem _ _ hmap, List.getElem_map]
        have hrowW : (img[i - p]).length = W :=
          hW _ (List.getElem_mem hidx)
        have hj : j < p ∨ W + p ≤ j := by
          rcases hcond with h | h | h | h
          · omega
          · omega
          · exact Or.inl h
          · exact Or.inr h
        rw [List.append_assoc]
        rcases hj with hj | hj
        · rw [getD_append_left (by rwa [List.length_replicate]) bg, getD_replicate_lt _ _ hj]
        · rw [getD_append_right (by rw [List.length_replicate]; omega) bg]
          simp only [List.length_replicate]
          rw [getD_append_right (by rw [hrowW]; omega) bg]
          rw [getD_replicate]
      · -- the bottom border
        push_neg at him
        rw [getD_append_right (by rw [List.length_map, hH]; omega) []]
        simp only [List.length_map, hH]
        by_cases hbot : i - p - H < p
        · rw [getD_replicate_lt _ _ hbot, getD_replicate]
        · push_neg at hbot
          rw [show (List.replicate p (List.replicate (W + 2 * p) bg)).getD (i - p - H)
              ([] : List K) = [] from
            List.getD_eq_default _ _ (by rwa [List.length_replicate])]
          rfl

lemma pad_stack_length {K : Type} (p : ℕ) (bg : K) (s : Stack K) :
    (pad_stack p bg s).length = s.length := by
  simp [pad_stack]

lemma stack_shape_pad {K : Type} (p : ℕ) (bg : K) (s : Stack K) (D H W : ℕ)
    (hr : rect_stack D H W s) (hD : 0 < D) (hH : 0 < H) :
    stack_shape (pad_stack p bg s) = (H + 2 * p, W + 2 * p) := by
  obtain ⟨hlen, himg⟩ := hr
  cases s with
  | nil =>
    rw [List.length_nil] at hlen
    omega
  | cons a t =>
    obtain ⟨haH, haW⟩ := himg a (List.mem_cons_self a t)
    obtain ⟨hplen, hprows, -⟩ := pad_image_spec p bg a H W haH haW hH
    have hpne : pad_image p bg a ≠ [] := by
      intro h
      rw [h] at hplen
      simp at hplen
      omega
    unfold pad_stack stack_shape
    rw [List.map_cons, List.headD_cons]
    cases hpd : pad_image p bg a with
    | nil => exact absurd hpd hpne
    | cons r rs =>
      have hr' : r ∈ pad_image p bg a := by
        rw [hpd]
        exact List.mem_cons_self r rs
      have hrW := hprows r hr'
      rw [hpd] at hplen
      rw [List.headD_cons, hrW]
      rw [List.length_cons] at hplen
      simp [hplen]

/-! ## Renderer dimension lemmas -/

lemma draw_cells_dims {K : Type} (ops : CellOps K) (hdraw : draw_dims_preserving ops)
    (cs : List (Cell K)) (cfg : SimulationConfig K) (z : K) (canvas : Image K) :
    img_dims (draw_cells ops cs cfg z canvas) = img_dims canvas := by
  induction cs generalizing canvas with
  | nil => rfl
  | cons c cs ih =>
    unfold draw_cells at ih ⊢
    rw [List.foldl_cons, ih, hdraw]

lemma full_image_dims {K : Type} (h w : ℕ) (bg : K) :
    img_dims (full_image (h, w) bg) = List.replicate h w := by
  simp [img_dims, full_image, List.map_replicate, List.length_replicate]

lemma shape_of_eq_map_dims {K : Type} (s : Stack K) : shape_of s = s.map img_dims := rfl

/-! ## Claim theorems -/

/-- C2: provided each perturbation trial's finalize callback runs exactly once
and operations are serialized (which the functional state-passing model
enforces by construction), the cached synthetic stack equals the rendering of
the current committed cell sequence after construction, after a finalized
perturbation trial with either decision, and after a gradient-descent pass. -/
theorem cache_consistency_invariant {K : Type} [Field K] (ops : CellOps K) (sqrtFn : K → K) :
    (∀ (real : Stack K) (cfg : SimulationConfig K) (cells : Option (List (Cell K)))
        (out nm : String) (f : Frame K),
        Frame.init ops real cfg cells out nm = .ok f → cache_consistent ops f)
    ∧ (∀ (f : Frame K) (index : ℕ) (mid : Frame K) (d : K) (fin : Bool → Frame K),
        f.perturb ops sqrtFn index = .ok (mid, d, fin) → cache_consistent ops f →
        ∀ b, cache_consistent ops (fin b))
    ∧ (∀ (f g : Frame K), f.gradient_descent ops sqrtFn = .ok g →
        cache_consistent ops g) := by
  refine ⟨?_, ?_, ?_⟩
  · intro real cfg cells out nm f h
    obtain ⟨cs, -, rfl⟩ := init_ok_inv h
    rfl
  · intro f index mid d fin hp hcc b
    obtain ⟨cs, hc, hidx, -, rfl⟩ := perturb_ok_inv hp
    have hrender : render_synth ops f.simulation_config f.z_slices f.get_image_shape cs
        = f.synth_image_stack := by
      unfold cache_consistent Frame.generate_synth_images at hcc
      rw [hc] at hcc
      exact Except.ok.inj hcc
    cases b with
    | true =>
      show cache_consistent ops { f with cells := some ((cs.set index
        (ops.get_perturbed_cell (cs.getD index default))).set index (cs.getD index default)) }
      rw [List.set_set, list_set_getD_self]
      show Except.ok (render_synth ops f.simulation_config f.z_slices f.get_image_shape cs)
        = Except.ok f.synth_image_stack
      rw [hrender]
    | false => rfl
  · intro f g h
    obtain ⟨cs, -, rfl⟩ := gradient_descent_ok_inv h
    rfl

/-- C3: in a gradient-descent pass the engine probes every parameter of every
cell except the identifying name field by shifting only that parameter by the
moving delta 1 on a cell sequence that is otherwise the committed one (the
probed cell is restored from its snapshot after each probe, so the sweep
leaves the cell state unchanged), re-renders the entire stack, and forms the
estimate (new_cost - orig_cost) / delta with the fixed epsilon delta = 1e-3
and orig_cost the single baseline cost of the cached stack computed before
the pass. -/
theorem gradient_probe_spec {K : Type} [Field K] (ops : CellOps K) (sqrtFn : K → K)
    (f : Frame K) (cs : List (Cell K)) (hc : f.cells = some cs) :
    (grad_sweep ops sqrtFn f (f.calculate_cost sqrtFn f.synth_image_stack) cs).2 = cs
    ∧ (∀ i q, (grad_sweep ops sqrtFn f (f.calculate_cost sqrtFn f.synth_image_stack) cs).1 i q
        = if i < cs.length
          then sweep_direction ops sqrtFn f (f.calculate_cost sqrtFn f.synth_image_stack) cs i q
          else 0)
    ∧ f.gradient_descent ops sqrtFn = .ok { f with
        cells := some (apply_directions
          (grad_sweep ops sqrtFn f (f.calculate_cost sqrtFn f.synth_image_stack) cs).1
          cs.length cs)
        synth_image_stack := render_synth ops f.simulation_config f.z_slices f.get_image_shape
          (apply_directions
            (grad_sweep ops sqrtFn f (f.calculate_cost sqrtFn f.synth_image_stack) cs).1
            cs.length cs) } := by
  have hs := grad_sweep_eq ops sqrtFn f (f.calculate_cost sqrtFn f.synth_image_stack) cs
  have h2 : (grad_sweep ops sqrtFn f (f.calculate_cost sqrtFn f.synth_image_stack) cs).2
      = cs := by
    rw [hs]
  refine ⟨h2, ?_, ?_⟩
  · intro i q
    rw [hs]
  · simp only [Frame.gradient_descent, hc]
    rw [h2]
    rfl

/-- C4: the per-parameter descent directions are only accumulated during the
sweep and committed afterwards, each cell receiving its accumulated direction
vector as one combined parameter shift; the pass always returns a committed
frame whose cache is regenerated from the final cells, with no hypothesis on
the costs (no rollback when the cost increases). -/
theorem gradient_commit_spec {K : Type} [Field K] (ops : CellOps K) (sqrtFn : K → K)
    (f : Frame K) (cs : List (Cell K)) (hc : f.cells = some cs) :
    (f.gradient_descent ops sqrtFn).isOk = true
    ∧ ∀ g, f.gradient_descent ops sqrtFn = .ok g →
        g.cells = some (cs.mapIdx (fun i c => c.get_paramaterized_cell
          ((grad_sweep ops sqrtFn f (f.calculate_cost sqrtFn f.synth_image_stack) cs).1 i)))
        ∧ g.synth_image_stack = render_synth ops f.simulation_config f.z_slices
            f.get_image_shape
            (cs.mapIdx (fun i c => c.get_paramaterized_cell
              ((grad_sweep ops sqrtFn f (f.calculate_cost sqrtFn f.synth_image_stack) cs).1 i)))
        ∧ g.real_image_stack = f.real_image_stack
        ∧ g.simulation_config = f.simulation_config
        ∧ g.z_slices = f.z_slices := by
  have h2 : (grad_sweep ops sqrtFn f (f.calculate_cost sqrtFn f.synth_image_stack) cs).2
      = cs := by
    rw [grad_sweep_eq]
  constructor
  · simp only [Frame.gradient_descent, hc]
    rfl
  · intro g hg
    obtain ⟨cs2, hc2, rfl⟩ := gradient_descent_ok_inv hg
    rw [hc] at hc2
    obtain rfl := Option.some.inj hc2
    rw [h2, apply_directions_eq]
    exact ⟨rfl, rfl, rfl, rfl, rfl⟩

/-- C1 (code bug): at a concrete valid Frame, the perturbation finalize
callback does the opposite of the claim: deciding accepted (true) restores
the old cell and keeps the old cached stack, while rejected (false) keeps
the perturbed cell and installs the newly rendered stack. -/
theorem perturb_finalize_swapped :
    Frame.init opsZ realZ cfgZ (some [cellZ]) "" "" = .ok frameZ
    ∧ opsZ.get_perturbed_cell cellZ = perturbedZ
    ∧ perturbedZ ≠ cellZ
    ∧ (Frame.perturb frameZ opsZ id 0).isOk = true
    ∧ (finalizeZ true).cells = some [cellZ]
    ∧ (finalizeZ true).synth_image_stack = frameZ.synth_image_stack
    ∧ (finalizeZ false).cells = some [perturbedZ]
    ∧ (finalizeZ false).synth_image_stack
        = render_synth opsZ cfgZ frameZ.z_slices frameZ.get_image_shape [perturbedZ]
    ∧ (finalizeZ false).synth_image_stack ≠ frameZ.synth_image_stack := by decide

/-- C5 counterexample: with an even slice count (2 slices, scale 1, as in
`cfgZ2`) the z coordinates are [-1, 0], which is not symmetric about zero. -/
theorem z_slices_even_not_symmetric :
    mk_z_slices cfgZ2 = [-1, 0]
    ∧ ¬ (∀ x ∈ mk_z_slices cfgZ2, -x ∈ mk_z_slices cfgZ2) := by decide

/-- C5 amended: the z-coordinate sequence has length equal to the configured
slice count and consecutive coordinates differ by the scale factor, for every
configuration; it is symmetric about zero provided the slice count is odd. -/
theorem z_slices_spec {K : Type} [CommRing K] (cfg : SimulationConfig K) :
    (mk_z_slices cfg).length = cfg.z_slices
    ∧ (∀ i, i + 1 < cfg.z_slices →
        (mk_z_slices cfg).getD (i + 1) 0 - (mk_z_slices cfg).getD i 0 = cfg.z_scaling)
    ∧ (cfg.z_slices % 2 = 1 → ∀ x ∈ mk_z_slices cfg, -x ∈ mk_z_slices cfg) := by
  refine ⟨mk_z_slices_length cfg, ?_, ?_⟩
  · intro i h
    rw [mk_z_slices_getD cfg (i + 1) h, mk_z_slices_getD cfg i (by omega)]
    push_cast
    ring
  · intro hodd x hx
    obtain ⟨i, hi, rfl⟩ := List.mem_map.mp hx
    rw [List.mem_range] at hi
    have hnk : cfg.z_slices = 2 * (cfg.z_slices / 2) + 1 := by omega
    have hile : i ≤ 2 * (cfg.z_slices / 2) := by omega
    refine List.mem_map.mpr ⟨2 * (cfg.z_slices / 2) - i, List.mem_range.mpr (by omega), ?_⟩
    have hcast : ((2 * (cfg.z_slices / 2) - i : ℕ) : ℤ)
        = 2 * ((cfg.z_slices / 2 : ℕ) : ℤ) - (i : ℤ) := by
      rw [Nat.cast_sub hile]
      push_cast
      ring
    show cfg.z_scaling * ((((2 * (cfg.z_slices / 2) - i : ℕ) : ℤ)
          - ((cfg.z_slices / 2 : ℕ) : ℤ) : ℤ) : K)
        = -(cfg.z_scaling * ((((i : ℕ) : ℤ) - ((cfg.z_slices / 2 : ℕ) : ℤ) : ℤ) : K))
    rw [hcast]
    have harith : (2 * ((cfg.z_slices / 2 : ℕ) : ℤ) - (i : ℤ)) - ((cfg.z_slices / 2 : ℕ) : ℤ)
        = -(((i : ℕ) : ℤ) - ((cfg.z_slices / 2 : ℕ) : ℤ)) := by ring
    rw [harith, Int.cast_neg, mul_neg]

/-- C6 counterexample: an empty (but present) cell sequence does not make
construction or rendering fail with a cells-required error; both succeed. -/
theorem empty_cells_do_not_error :
    (Frame.init opsZ realZ cfgZ (some ([] : List (Cell ℤ))) "" "").isOk = true
    ∧ (frameEmptyCellsZ.generate_synth_images opsZ).isOk = true := by decide

/-- C6 amended: the explicit cells-required error occurs exactly when the
cell sequence is None: construction and rendering then fail with the error
"Cells are not set"; an empty present cell list constructs and renders
successfully, and only the start of a perturbation trial fails on it, with
the range error of the random index draw rather than a cells-required
error. -/
theorem cells_error_spec {K : Type} [Ring K] (ops : CellOps K) (sqrtFn : K → K)
    (real : Stack K) (cfg : SimulationConfig K) (out nm : String) (f : Frame K) :
    Frame.init ops real cfg none out nm = .error "Cells are not set"
    ∧ (f.cells = none → f.generate_synth_images ops = .error "Cells are not set")
    ∧ (f.cells = some [] → (f.generate_synth_images ops).isOk = true
        ∧ ∀ index, f.perturb ops sqrtFn index = .error "empty range for randrange") := by
  refine ⟨init_none ops real cfg out nm, ?_, ?_⟩
  · intro h
    unfold Frame.generate_synth_images
    rw [h]
  · intro h
    constructor
    · unfold Frame.generate_synth_images
      rw [h]
      rfl
    · intro index
      unfold Frame.perturb
      rw [h]
      rfl

/-- C7: after construction the padded real stack keeps the original depth,
every slice gains 2p on each spatial axis, and every pixel of the added
border equals the configured background value. -/
theorem padding_spec {K : Type} [Ring K] (ops : CellOps K) (real : Stack K)
    (cfg : SimulationConfig K) (cells : Option (List (Cell K))) (out nm : String)
    (f : Frame K) (D H W : ℕ) (hH : 0 < H) (hr : rect_stack D H W real)
    (hinit : Frame.init ops real cfg cells out nm = .ok f) :
    f.real_image_stack.length = D
    ∧ ∀ img ∈ f.real_image_stack,
        img.length = H + 2 * cfg.padding
        ∧ (∀ row ∈ img, row.length = W + 2 * cfg.padding)
        ∧ ∀ i j, (i < cfg.padding ∨ H + cfg.padding ≤ i ∨ j < cfg.padding
              ∨ W + cfg.padding ≤ j) →
            (img.getD i []).getD j cfg.background_color = cfg.background_color := by
  obtain ⟨cs, -, rfl⟩ := init_ok_inv hinit
  obtain ⟨hlen, himg⟩ := hr
  constructor
  · show (pad_stack cfg.padding cfg.background_color real).length = D
    rw [pad_stack_length, hlen]
  · intro img hmem
    replace hmem : img ∈ pad_stack cfg.padding cfg.background_color real := hmem
    obtain ⟨slice, hslice, rfl⟩ := List.mem_map.mp hmem
    obtain ⟨hsH, hsW⟩ := himg slice hslice
    exact pad_image_spec cfg.padding cfg.background_color slice H W hsH hsW hH

/-- C8: the cost evaluator returns the L2 norm of the elementwise difference,
which is symmetric in its two stacks, non-negative, and zero on identical
stacks. -/
theorem cost_l2_spec (A B : Stack ℝ) (h : same_shape A B) :
    calculate_cost Real.sqrt A B = calculate_cost Real.sqrt B A
    ∧ 0 ≤ calculate_cost Real.sqrt A B
    ∧ calculate_cost Real.sqrt A A = 0 := by
  refine ⟨?_, Real.sqrt_nonneg _, ?_⟩
  · unfold calculate_cost
    rw [sq_cost_comm]
  · unfold calculate_cost
    rw [sq_cost_self, Real.sqrt_zero]

/-- C9 counterexample: a Frame whose configured slice count (2, `cfgZ2`)
differs from the real stack depth (1) renders a synthetic stack of 2 slices
while the padded real stack has 1, so the full stack shapes differ. -/
theorem synth_shape_mismatch :
    Frame.init opsZ realZ cfgZ2 (some ([] : List (Cell ℤ))) "" "" = .ok frameMismatchZ
    ∧ frameMismatchZ.synth_image_stack.length = 2
    ∧ frameMismatchZ.real_image_stack.length = 1
    ∧ shape_of frameMismatchZ.synth_image_stack
        ≠ shape_of frameMismatchZ.real_image_stack := by decide

/-- C9 amended: the rendered stack has one slice per z coordinate (the
configured count) and every slice has the padded per-slice dimensions; the
full stack shape equals the padded real stack shape exactly when the
configured slice count equals the real stack depth. -/
theorem render_shape_spec {K : Type} [Ring K] (ops : CellOps K) (real : Stack K)
    (cfg : SimulationConfig K) (cells : Option (List (Cell K))) (out nm : String)
    (f : Frame K) (D H W : ℕ)
    (hdraw : draw_dims_preserving ops) (hD : 0 < D) (hH : 0 < H)
    (hr : rect_stack D H W real)
    (hinit : Frame.init ops real cfg cells out nm = .ok f) :
    ∀ ss, f.generate_synth_images ops = .ok ss →
      ss.length = cfg.z_slices
      ∧ (∀ img ∈ ss, img_dims img
          = List.replicate (H + 2 * cfg.padding) (W + 2 * cfg.padding))
      ∧ (cfg.z_slices = D → shape_of ss = shape_of f.real_image_stack) := by
  obtain ⟨cs, -, rfl⟩ := init_ok_inv hinit
  intro ss hss
  have hss2 : ss = render_synth ops cfg (mk_z_slices cfg)
      (stack_shape (pad_stack cfg.padding cfg.background_color real)) cs :=
    (Except.ok.inj hss).symm
  subst hss2
  have hshape := stack_shape_pad cfg.padding cfg.background_color real D H W hr hD hH
  have hdims : ∀ img ∈ render_synth ops cfg (mk_z_slices cfg)
      (stack_shape (pad_stack cfg.padding cfg.background_color real)) cs,
      img_dims img = List.replicate (H + 2 * cfg.padding) (W + 2 * cfg.padding) := by
    intro img hmem
    obtain ⟨z, hz, rfl⟩ := List.mem_map.mp hmem
    rw [draw_cells_dims ops hdraw, hshape]
    exact full_image_dims _ _ _
  refine ⟨?_, hdims, ?_⟩
  · unfold render_synth
    rw [List.length_map, mk_z_slices_length]
  · intro hzD
    have hpaddims : ∀ img ∈ pad_stack cfg.padding cfg.background_color real,
        img_dims img = List.replicate (H + 2 * cfg.padding) (W + 2 * cfg.padding) := by
      intro img hmem
      obtain ⟨slice, hslice, rfl⟩ := List.mem_map.mp hmem
      obtain ⟨hsH, hsW⟩ := hr.2 slice hslice
      obtain ⟨hplen, hprows, -⟩ :=
        pad_image_spec cfg.padding cfg.background_color slice H W hsH hsW hH
      have hall : ∀ b ∈ img_dims (pad_image cfg.padding cfg.background_color slice),
          b = W + 2 * cfg.padding := by
        intro b hb
        obtain ⟨row, hrow, rfl⟩ := List.mem_map.mp hb
        exact hprows row hrow
      have hdlen : (img_dims (pad_image cfg.padding cfg.background_color slice)).length
          = H + 2 * cfg.padding := by
        unfold img_dims
        rw [List.length_map, hplen]
      rw [List.eq_replicate_of_mem hall, hdlen]
    have hrs : shape_of (render_synth ops cfg (mk_z_slices cfg)
        (stack_shape (pad_stack cfg.padding cfg.background_color real)) cs)
        = List.replicate cfg.z_slices
            (List.replicate (H + 2 * cfg.padding) (W + 2 * cfg.padding)) := by
      rw [shape_of_eq_map_dims]
      have hall : ∀ b ∈ (render_synth ops cfg (mk_z_slices cfg)
          (stack_shape (pad_stack cfg.padding cfg.background_color real)) cs).map img_dims,
          b = List.replicate (H + 2 * cfg.padding) (W + 2 * cfg.padding) := by
        intro b hb
        obtain ⟨img, hmem, rfl⟩ := List.mem_map.mp hb
        exact hdims img hmem
      rw [List.eq_replicate_of_mem hall, List.length_map]
      unfold render_synth
      rw [List.length_map, mk_z_slices_length]
    have hps : shape_of (pad_stack cfg.padding cfg.background_color real)
        = List.replicate D
            (List.replicate (H + 2 * cfg.padding) (W + 2 * cfg.padding)) := by
      rw [shape_of_eq_map_dims]
      have hall : ∀ b ∈ (pad_stack cfg.padding cfg.background_color real).map img_dims,
          b = List.replicate (H + 2 * cfg.padding) (W + 2 * cfg.padding) := by
        intro b hb
        obtain ⟨img, hmem, rfl⟩ := List.mem_map.mp hb
        exact hpaddims img hmem
      rw [List.eq_replicate_of_mem hall, List.length_map, pad_stack_length, hr.1]
    show shape_of _ = shape_of (pad_stack cfg.padding cfg.background_color real)
    rw [hrs, hps, hzD]

/-- C10: with an empty (but present) cell list, rendering succeeds and
returns one background-filled canvas per z coordinate; the explicit error
is raised only when the cell sequence is None. -/
theorem render_empty_cells_spec {K : Type} [Ring K] (ops : CellOps K) (f : Frame K) :
    (f.cells = some [] →
      f.generate_synth_images ops
        = .ok (f.z_slices.map (fun _ => full_image f.get_image_shape
            f.simulation_config.background_color))
      ∧ ∀ ss, f.generate_synth_images ops = .ok ss →
          ss.length = f.z_slices.length
          ∧ ∀ img ∈ ss, ∀ row ∈ img, ∀ x ∈ row,
              x = f.simulation_config.background_color)
    ∧ (∀ cs, f.cells = some cs → (f.generate_synth_images ops).isOk = true)
    ∧ (f.cells = none → f.generate_synth_images ops = .error "Cells are not set") := by
  refine ⟨?_, ?_, ?_⟩
  · intro h
    have hgen : f.generate_synth_images ops
        = .ok (f.z_slices.map (fun _ => full_image f.get_image_shape
            f.simulation_config.background_color)) := by
      unfold Frame.generate_synth_images
      rw [h]
      rfl
    refine ⟨hgen, ?_⟩
    intro ss hss
    rw [hgen] at hss
    obtain rfl := Except.ok.inj hss
    constructor
    · rw [List.length_map]
    · intro img hmem row hrow x hx
      obtain ⟨z, hz, rfl⟩ := List.mem_map.mp hmem
      unfold full_image at hrow
      rw [List.mem_replicate] at hrow
      rw [hrow.2, List.mem_replicate] at hx
      exact hx.2
  · intro cs h
    unfold Frame.generate_synth_images
    rw [h]
    rfl
  · intro h
    unfold Frame.generate_synth_images
    rw [h]

/-! ## Witnesses: the hypotheses of the claim theorems hold at concrete inputs -/

theorem cache_consistency_witness :
    cache_consistent opsQ frameQ ∧ cache_consistent opsQ (finalizeQ true)
    ∧ cache_consistent opsQ (finalizeQ false) ∧ cache_consistent opsQ gdQ := by
  have h := cache_consistency_invariant opsQ id
  have h1 : cache_consistent opsQ frameQ :=
    h.1 realQ cfgQ (some [cellQ]) "" "" frameQ rfl
  have h2 : ∀ b, cache_consistent opsQ (finalizeQ b) :=
    fun b => h.2.1 frameQ 0 midQ deltaQ finalizeQ rfl h1 b
  exact ⟨h1, h2 true, h2 false, h.2.2 frameQ gdQ rfl⟩

theorem gradient_probe_witness :
    (grad_sweep opsQ id frameQ (frameQ.calculate_cost id frameQ.synth_image_stack) [cellQ]).2
      = [cellQ] :=
  (gradient_probe_spec opsQ id frameQ [cellQ] rfl).1

theorem gradient_commit_witness :
    (Frame.gradient_descent frameQ opsQ id).isOk = true
    ∧ gdQ.cells = some ([cellQ].mapIdx (fun i c => c.get_paramaterized_cell
        ((grad_sweep opsQ id frameQ (frameQ.calculate_cost id frameQ.synth_image_stack)
          [cellQ]).1 i))) := by
  have h := gradient_commit_spec opsQ id frameQ [cellQ] rfl
  exact ⟨h.1, (h.2 gdQ rfl).1⟩

theorem z_slices_spec_witness :
    (mk_z_slices cfgOddZ).length = 3
    ∧ (mk_z_slices cfgOddZ).getD 1 0 - (mk_z_slices cfgOddZ).getD 0 0 = 2
    ∧ -((mk_z_slices cfgOddZ).getD 0 0) ∈ mk_z_slices cfgOddZ := by
  obtain ⟨h1, h2, h3⟩ := z_slices_spec (K := ℤ) cfgOddZ
  exact ⟨h1, h2 0 (by decide), h3 (by decide) _ (by decide)⟩

theorem cells_error_witness :
    Frame.init opsZ realZ cfgZ none "" "" = .error "Cells are not set"
    ∧ frameNoCellsZ.generate_synth_images opsZ = .error "Cells are not set"
    ∧ (frameEmptyCellsZ.generate_synth_images opsZ).isOk = true
    ∧ frameEmptyCellsZ.perturb opsZ id 0 = .error "empty range for randrange" := by
  have h := cells_error_spec opsZ id realZ cfgZ "" "" frameNoCellsZ
  have h2 := cells_error_spec opsZ id realZ cfgZ "" "" frameEmptyCellsZ
  exact ⟨h.1, h.2.1 rfl, (h2.2.2 rfl).1, (h2.2.2 rfl).2 0⟩

theorem padding_witness :
    framePadZ.real_image_stack.length = 1
    ∧ ((framePadZ.real_image_stack.getD 0 []).getD 0 []).getD 0 (7 : ℤ) = 7 := by
  have h := padding_spec opsZ realPadZ cfgPadZ (some []) "" "" framePadZ 1 2 2
    (by decide) (by decide) rfl
  refine ⟨h.1, ?_⟩
  have hm : framePadZ.real_image_stack.getD 0 [] ∈ framePadZ.real_image_stack := by decide
  exact (h.2 _ hm).2.2 0 0 (Or.inl (by decide))

theorem cost_l2_witness :
    calculate_cost Real.sqrt stackA stackB = calculate_cost Real.sqrt stackB stackA
    ∧ 0 ≤ calculate_cost Real.sqrt stackA stackB
    ∧ calculate_cost Real.sqrt stackA stackA = 0 :=
  cost_l2_spec stackA stackB rfl

theorem render_shape_witness :
    ssPadZ.length = 1
    ∧ shape_of ssPadZ = shape_of framePadZ.real_image_stack := by
  have hdp : draw_dims_preserving opsZ := by
    intro c img cfg z
    simp [opsZ, img_dims, List.map_map, Function.comp]
  have h := render_shape_spec opsZ realPadZ cfgPadZ (some []) "" "" framePadZ 1 2 2 hdp
    (by decide) (by decide) (by decide) rfl ssPadZ rfl
  exact ⟨h.1, h.2.2 rfl⟩

theorem render_empty_witness :
    frameEmptyCellsZ.generate_synth_images opsZ
      = .ok (frameEmptyCellsZ.z_slices.map (fun _ => full_image
          frameEmptyCellsZ.get_image_shape
          frameEmptyCellsZ.simulation_config.background_color))
    ∧ frameNoCellsZ.generate_synth_images opsZ = .error "Cells are not set" := by
  have h := render_empty_cells_spec opsZ frameEmptyCellsZ
  have h2 := render_empty_cells_spec opsZ frameNoCellsZ
  exact ⟨(h.1 rfl).1, h2.2.2 rfl⟩

end CellUniverse
